import Mathlib

/-! Work generation of the mining pool: `bitcoin/generator.go`

A shallow embedding of `GenerateWork`, `BitcoinBlock.Header`, `BitcoinBlock.Sum` and
`BitcoinBlock.Submit`.  Go strings are Lean strings, `[]byte` is `List UInt8`, a Go
`error` is its message, and a Go `(T, error)` result is either `Result` (when the value
is dropped on error) or a pair (when the value is kept next to the error).

The helpers of package `bitcoin` that live outside `generator.go` and `work.go` are the
fields of `Deps`: every theorem holds for all of them.
-/

namespace bitcoin

/-! ## Go library functions used by the source -/

/-- One lowercase hexadecimal digit (the table `0123456789abcdef` of `encoding/hex`
and `fmt`). -/
def hexDigit (d : Nat) : Char :=
  if d < 10 then Char.ofNat (48 + d) else Char.ofNat (87 + d)

/-- Digits of `n` in base 16, most significant first, appended in front of `acc`;
`fuel` bounds the number of digits. -/
def hexDigitsAux : Nat → Nat → List Char → List Char
  | 0, _, acc => acc
  | fuel + 1, n, acc =>
    if n < 16 then hexDigit n :: acc
    else hexDigitsAux fuel (n / 16) (hexDigit (n % 16) :: acc)

/-- Shortest lowercase hexadecimal numeral of `n` (`0` for zero). -/
def hexDigits (n : Nat) : List Char := hexDigitsAux (n + 1) n []

/-- Left padding with `0` up to `width` characters (the `0` flag of `fmt`). -/
def zeroPad (width : Nat) (ds : List Char) : List Char :=
  List.replicate (width - ds.length) '0' ++ ds

/-- `fmt.Sprintf("%x", v)` for an unsigned `v`. -/
def sprintfx (v : Nat) : String := String.mk (hexDigits v)

/-- `fmt.Sprintf("%08x", v)` for an unsigned `v`. -/
def sprintf08xUint (v : Nat) : String := String.mk (zeroPad 8 (hexDigits v))

/-- `fmt.Sprintf("%08x", v)` for a signed `v`: the sign counts in the width, the zeros
come after it. -/
def sprintf08x (v : Int) : String :=
  if v < 0 then String.mk ('-' :: zeroPad 7 (hexDigits v.natAbs))
  else String.mk (zeroPad 8 (hexDigits v.natAbs))

/-- `hex.EncodeToString`: two lowercase digits per byte. -/
def hexEncodeToString (bs : List UInt8) : String :=
  String.mk (bs.flatMap fun b => [hexDigit (b.toNat / 16), hexDigit (b.toNat % 16)])

/-- Value of a hexadecimal digit, either case (`reverseHexTable` of `encoding/hex`). -/
def fromHexChar (c : Char) : Option Nat :=
  if 48 ≤ c.toNat ∧ c.toNat ≤ 57 then some (c.toNat - 48)
  else if 97 ≤ c.toNat ∧ c.toNat ≤ 102 then some (c.toNat - 87)
  else if 65 ≤ c.toNat ∧ c.toNat ≤ 70 then some (c.toNat - 55)
  else none

/-- The loop of `hex.Decode`: the bytes decoded before the first error, and the error. -/
def hexDecodeAux : List Char → List UInt8 × Option String
  | [] => ([], none)
  | [p] =>
    match fromHexChar p with
    | none => ([], some "encoding/hex: invalid byte")
    | some _ => ([], some "encoding/hex: odd length hex string")
  | p :: q :: rest =>
    match fromHexChar p, fromHexChar q with
    | some a, some b =>
      let r := hexDecodeAux rest
      (UInt8.ofNat (a * 16 + b) :: r.1, r.2)
    | _, _ => ([], some "encoding/hex: invalid byte")

/-- `hex.DecodeString`: returns the bytes decoded before the error together with the
error. -/
def hexDecodeString (s : String) : List UInt8 × Option String := hexDecodeAux s.data

/-- `[]byte(s)`: the UTF-8 bytes of a string. -/
def bytesOfString (s : String) : List UInt8 := s.data.flatMap String.utf8EncodeChar

/-- `new(big.Int).SetBytes(bs)`: the bytes read as a big-endian unsigned integer. -/
def bigIntSetBytes (bs : List UInt8) : Int :=
  ((bs.foldl (fun acc b => acc * 256 + b.toNat) 0 : Nat) : Int)

/-- The bytes read as a little-endian unsigned integer. -/
def littleEndianValue : List UInt8 → Nat
  | [] => 0
  | b :: rest => b.toNat + 256 * littleEndianValue rest

/-- Width of Go's `int` on the 64-bit targets. -/
def intBits : Nat := 64

/-- Two's-complement wrap of a mathematical integer into Go's `int`. -/
def wrapInt (x : Int) : Int :=
  (x + 2 ^ (intBits - 1)) % 2 ^ intBits - 2 ^ (intBits - 1)

/-- Conversion `uint(x)` of an `int` value. -/
def toUint (x : Int) : Nat := (x % 2 ^ intBits).toNat

/-! ## Data model -/

/-- Outcome of a Go call that returns `(T, error)`: a value with a nil error, a non-nil
error (the value is then the zero value), or a run-time panic. -/
inductive Result (α : Type) where
  | ok (v : α)
  | error (msg : String)
  | panic
  deriving DecidableEq, Repr

/-- Modelled from the spec: the declaration of a template transaction is not in the
source files at hand; §3 gives `{data: raw tx bytes, hash}`. -/
structure TemplateTransaction where
  Data : String
  Hash : String
  deriving DecidableEq, Repr

/-- Modelled from the spec: the declaration of `Template` is not in the source files at
hand; §3 gives `prev_block_hash` (text), `version` (u32), `current_time` (u32), `bits`
(text), `transactions` and `coinbase_value`. -/
structure Template where
  Version : Nat
  PrevBlockHash : String
  CurrentTime : Nat
  Bits : String
  Transactions : List TemplateTransaction
  CoinbaseValue : Nat
  deriving DecidableEq, Repr

/-- The chain policy behind `b.chain`: the two digests `generator.go` calls on it. -/
structure Blockchain where
  CoinbaseDigest : String → Result String
  HeaderDigest : String → Result String

/-- The composite literal `Coinbase{...}` built in `Header` (field names as spelled
there). -/
structure Coinbase where
  CoinbaseInital : String
  Arbitrary : String
  CoinbaseFinal : String
  deriving DecidableEq, Repr

/-- The fields of `BitcoinBlock` that `generator.go` reads or writes; `Template` and
`chain` may be nil. -/
structure BitcoinBlock where
  Template : Option Template
  reversePrevBlockHash : String
  coinbaseInitial : String
  coinbaseFinal : String
  arbitrary : String
  merkleSteps : List String
  coinbase : String
  header : String
  chain : Option Blockchain

/-- The zero value `BitcoinBlock{}`. -/
def BitcoinBlock.zero : BitcoinBlock :=
  { Template := none, reversePrevBlockHash := "", coinbaseInitial := "",
    coinbaseFinal := "", arbitrary := "", merkleSteps := [], coinbase := "",
    header := "", chain := none }

/-- One element of a `Work` (`[]any`): nil, a string or a list of strings. -/
inductive WorkItem where
  | null
  | str (s : String)
  | strs (l : List String)
  deriving DecidableEq, Repr

/-- The type `Work []any`. -/
abbrev Work := List WorkItem

/-- The functions of package `bitcoin` that `generator.go` calls and that are declared
in other files: parameters of the model. -/
structure Deps where
  /-- Type of the value returned by `Template.CoinbaseInitial`. -/
  CoinbaseInitialT : Type
  /-- Type of the value returned by `Template.CoinbaseFinal`. -/
  CoinbaseFinalT : Type
  GetChain : String → Option Blockchain
  reverseHex4Bytes : String → Result String
  bytesWithLengthHeader : List UInt8 → List UInt8
  CoinbaseInitial : Template → Nat → CoinbaseInitialT
  serializeInitial : CoinbaseInitialT → String
  CoinbaseFinal : Template → String → CoinbaseFinalT
  serializeFinal : CoinbaseFinalT → String
  MerkleSteps : Template → Result (List String)
  serializeCoinbase : Coinbase → String
  makeHeaderMerkleRoot : String → List String → Result String
  /-- Returns the header string together with the error (nil when `none`). -/
  blockHeader : Nat → String → String → String → String → String → String × Option String

/-! ## `generator.go` -/

/-- Method `Header` of `generator.go`: the instance after the call and the result.
The nil `chain` makes the method call on it panic, after `b.coinbase` was written;
`uint(t.Version)` is the version itself, the field being unsigned. -/
def BitcoinBlock.Header (env : Deps) (b : BitcoinBlock) (extranonce nonce : String) :
    BitcoinBlock × Result String :=
  match b.Template with
  | none => (b, .error "Generate work first")
  | some t =>
    let coinbase : Coinbase :=
      { CoinbaseInital := b.coinbaseInitial, Arbitrary := extranonce,
        CoinbaseFinal := b.coinbaseFinal }
    let b1 := { b with coinbase := env.serializeCoinbase coinbase }
    match b1.chain with
    | none => (b1, .panic)
    | some chain =>
      match chain.CoinbaseDigest b1.coinbase with
      | .panic => (b1, .panic)
      | .error e => (b1, .error e)
      | .ok coinbaseHashed =>
        match env.makeHeaderMerkleRoot coinbaseHashed b1.merkleSteps with
        | .panic => (b1, .panic)
        | .error e => (b1, .error e)
        | .ok merkleRoot =>
          let r := env.blockHeader t.Version t.PrevBlockHash merkleRoot
            (sprintfx t.CurrentTime) t.Bits nonce
          let b2 := { b1 with header := r.1 }
          match r.2 with
          | some e => (b2, .error e)
          | none => (b2, .ok b2.header)

/-- Modelled from the spec: method `init` is not in the source files at hand; by §3 and
§4.3 the block instance holds the chain policy resolved by name, so `init` stores the
chain and leaves the other fields alone. -/
def BitcoinBlock.init (b : BitcoinBlock) (chain : Option Blockchain) : BitcoinBlock :=
  { b with chain := chain }

/-- Modelled from the spec: the helper `reverse` is not in the source files at hand;
by §4.4 `Sum` "reverses the digest's byte order". -/
def reverse (bs : List UInt8) : List UInt8 := bs.reverse

/-- Modelled from the spec: method `createSubmissionHex` is not in the source files at
hand; by §6 the submission is the header followed by the coinbase transaction followed by
every other transaction's raw data, as one hex string. -/
def BitcoinBlock.createSubmissionHex (b : BitcoinBlock) : String :=
  match b.Template with
  | none => b.header ++ b.coinbase
  | some t => b.header ++ b.coinbase ++ String.join (t.Transactions.map fun tx => tx.Data)

/-- Function `GenerateWork` of `generator.go`, the package variable `jobCounter` passed
in and out: the counter after the call and the result (`nil, nil, err` is `error`). -/
def GenerateWork (env : Deps) (jobCounter : Int) (template : Option Template)
    (chainName arbitrary poolPayoutPubScriptKey : String)
    (reservedArbitraryByteLength : Int) : Int × Result (BitcoinBlock × Work) :=
  match template with
  | none => (jobCounter, .error "Template cannot be null")
  | some t =>
    let block := BitcoinBlock.zero
    let block := block.init (env.GetChain chainName)
    let block := { block with Template := some t }
    match env.reverseHex4Bytes t.PrevBlockHash with
    | .panic => (jobCounter, .panic)
    | .error e => (jobCounter, .error ("Invalid previous block hash hex: " ++ e))
    | .ok reversed =>
      let block := { block with reversePrevBlockHash := reversed }
      let arbitraryBytes := env.bytesWithLengthHeader (bytesOfString arbitrary)
      let arbitraryByteLength :=
        toUint (wrapInt ((arbitraryBytes.length : Int) + reservedArbitraryByteLength))
      let arbitraryHex := hexEncodeToString arbitraryBytes
      let block := { block with
        coinbaseInitial := env.serializeInitial (env.CoinbaseInitial t arbitraryByteLength) }
      let block := { block with
        coinbaseFinal :=
          arbitraryHex ++ env.serializeFinal (env.CoinbaseFinal t poolPayoutPubScriptKey) }
      match env.MerkleSteps t with
      | .panic => (jobCounter, .panic)
      | .error e => (jobCounter, .error e)
      | .ok steps =>
        let block := { block with merkleSteps := steps }
        let work : Work := List.replicate 8 WorkItem.null
        let work := work.set 0 (.str (sprintf08x jobCounter))
        let work := work.set 1 (.str block.reversePrevBlockHash)
        let work := work.set 2 (.str block.coinbaseInitial)
        let work := work.set 3 (.str (block.arbitrary ++ block.coinbaseFinal))
        let work := work.set 4 (.strs block.merkleSteps)
        let work := work.set 5 (.str (sprintf08xUint t.Version))
        let work := work.set 6 (.str t.Bits)
        let work := work.set 7 (.str (sprintfx t.CurrentTime))
        (wrapInt (jobCounter + 1), .ok (block, work))

/-- Method `Sum` of `generator.go` (it does not write to the instance). The error of
`hex.DecodeString` is overwritten unread: the bytes decoded so far are used. -/
def BitcoinBlock.Sum (b : BitcoinBlock) : Result Int :=
  match b.chain with
  | none => .error "CalculateSum: Missing blockchain interface"
  | some chain =>
    if b.header = "" then .error "Generate header first"
    else
      match chain.HeaderDigest b.header with
      | .panic => .panic
      | .error e => .error e
      | .ok digest =>
        let digestBytes := (hexDecodeString digest).1
        let digestBytes := reverse digestBytes
        .ok (bigIntSetBytes digestBytes)

/-- Method `Submit` of `generator.go` (it does not write to the instance). The local
`transactionPool` is filled and not used; a nil `Template` makes the loop header
panic. -/
def BitcoinBlock.Submit (b : BitcoinBlock) : Result String :=
  if b.header = "" then .error "Generate header first"
  else
    match b.Template with
    | none => .panic
    | some t =>
      let _transactionPool := t.Transactions.map fun transaction => transaction.Data
      .ok b.createSubmissionHex

/-! ## `work.go` -/

/-- Method `NonceSubmissionSlot` of `work.go`. -/
def BitcoinBlock.NonceSubmissionSlot (_b : BitcoinBlock) : Nat := 4

/-- Method `Extranonce2SubmissionSlot` of `work.go`. -/
def BitcoinBlock.Extranonce2SubmissionSlot (_b : BitcoinBlock) : Nat × Bool := (2, true)

/-! ## Runs of `GenerateWork` against the package variable `jobCounter` -/

/-- The arguments of one `GenerateWork` call. -/
structure Call where
  template : Option Template
  chainName : String
  arbitrary : String
  poolPayoutPubScriptKey : String
  reservedArbitraryByteLength : Int

/-- One call after another, each starting from the counter the previous one left: the
final counter and the results in call order. -/
def runCalls (env : Deps) : Int → List Call → Int × List (Result (BitcoinBlock × Work))
  | c, [] => (c, [])
  | c, call :: rest =>
    let r := GenerateWork env c call.template call.chainName call.arbitrary
      call.poolPayoutPubScriptKey call.reservedArbitraryByteLength
    let rs := runCalls env r.1 rest
    (rs.1, r.2 :: rs.2)

/-- Element 0 of the Work descriptor of a successful call. -/
def jobID : Result (BitcoinBlock × Work) → Option String
  | .ok (_, .str s :: _) => some s
  | _ => none

/-- Job IDs of the successful calls, in call order. -/
def jobIDs (rs : List (Result (BitcoinBlock × Work))) : List String := rs.filterMap jobID

/-- Reading of a digit string as a hexadecimal number, `acc` being the value read so
far. -/
def parseHexAux : List Char → Nat → Option Nat
  | [], acc => some acc
  | c :: cs, acc =>
    match fromHexChar c with
    | none => none
    | some d => parseHexAux cs (acc * 16 + d)

/-- A non-empty string of hexadecimal digits read as a number. -/
def parseHex (s : String) : Option Nat :=
  if s.data = [] then none else parseHexAux s.data 0

/-- The first job ID reads as a smaller hexadecimal number than the second. -/
def idLt (a b : String) : Prop :=
  ∃ x y, parseHex a = some x ∧ parseHex b = some y ∧ x < y

/-- The call returned a value and a nil error. -/
def Result.isOk {α : Type} : Result α → Bool
  | .ok _ => true
  | _ => false

/-- A character among `0123456789abcdef`. -/
def isLowerHexDigit (c : Char) : Prop :=
  (48 ≤ c.toNat ∧ c.toNat ≤ 57) ∨ (97 ≤ c.toNat ∧ c.toNat ≤ 102)

/-! ## A concrete instance, for evaluating the model -/

/-- A toy chain policy: both digests are the identity on their hex input. -/
def demoChain : Blockchain :=
  { CoinbaseDigest := fun s => if s = "" then .error "empty coinbase" else .ok s,
    HeaderDigest := fun s => .ok s }

/-- Byte order reversed inside each 4-byte word of a hex string. -/
def demoReverseWords : List Char → List Char
  | a0 :: a1 :: b0 :: b1 :: c0 :: c1 :: d0 :: d1 :: rest =>
    d0 :: d1 :: c0 :: c1 :: b0 :: b1 :: a0 :: a1 :: demoReverseWords rest
  | _ => []

/-- A toy instance of the helpers. -/
def demoDeps : Deps :=
  { CoinbaseInitialT := String,
    CoinbaseFinalT := String,
    GetChain := fun name => if name = "demo" then some demoChain else none,
    reverseHex4Bytes := fun s =>
      if s.length % 8 = 0 then .ok (String.mk (demoReverseWords s.data))
      else .error "odd length hex string",
    bytesWithLengthHeader := fun bs => UInt8.ofNat bs.length :: bs,
    CoinbaseInitial := fun t n => sprintf08xUint t.Version ++ sprintfx n,
    serializeInitial := fun s => s,
    CoinbaseFinal := fun t script => script ++ sprintfx t.CoinbaseValue,
    serializeFinal := fun s => s,
    MerkleSteps := fun t =>
      if t.Bits = "" then .error "no bits" else .ok (t.Transactions.map fun tx => tx.Hash),
    serializeCoinbase := fun c => c.CoinbaseInital ++ c.Arbitrary ++ c.CoinbaseFinal,
    makeHeaderMerkleRoot := fun d steps => .ok (String.join (d :: steps)),
    blockHeader := fun v p r t b n => (sprintf08xUint v ++ p ++ r ++ t ++ b ++ n, none) }

/-- A template with one transaction. -/
def demoTemplate : Template :=
  { Version := 1, PrevBlockHash := "0011223344556677", CurrentTime := 1234567890,
    Bits := "1d00ffff", Transactions := [{ Data := "aabb", Hash := "cc" }],
    CoinbaseValue := 50 }

/-- The block instance of a first job on the toy instance. -/
def demoBlock : BitcoinBlock :=
  { Template := some demoTemplate, reversePrevBlockHash := "3322110077665544",
    coinbaseInitial := "000000019", coinbaseFinal := "04706f6f6c5132", arbitrary := "",
    merkleSteps := ["cc"], coinbase := "", header := "", chain := some demoChain }

/-- Three failing and two successful calls on the toy instance. -/
def demoCalls : List Call :=
  [ { template := none, chainName := "demo", arbitrary := "pool",
      poolPayoutPubScriptKey := "51", reservedArbitraryByteLength := 4 },
    { template := some demoTemplate, chainName := "demo", arbitrary := "pool",
      poolPayoutPubScriptKey := "51", reservedArbitraryByteLength := 4 },
    { template := some { demoTemplate with PrevBlockHash := "001" }, chainName := "demo",
      arbitrary := "pool", poolPayoutPubScriptKey := "51",
      reservedArbitraryByteLength := 4 },
    { template := some { demoTemplate with Bits := "" }, chainName := "demo",
      arbitrary := "pool", poolPayoutPubScriptKey := "51",
      reservedArbitraryByteLength := 4 },
    { template := some demoTemplate, chainName := "demo", arbitrary := "",
      poolPayoutPubScriptKey := "51", reservedArbitraryByteLength := 8 } ]

/-! ## Lemmas on the library functions -/

theorem bigIntSetBytes_reverse (bs : List UInt8) :
    bigIntSetBytes bs.reverse = (littleEndianValue bs : Int) := by
  unfold bigIntSetBytes
  rw [List.foldl_reverse]
  congr 1
  induction bs with
  | nil => rfl
  | cons b rest ih =>
    simp only [List.foldr_cons, littleEndianValue, ih]
    omega

theorem bigIntSetBytes_nonneg (bs : List UInt8) : 0 ≤ bigIntSetBytes bs := by
  unfold bigIntSetBytes
  exact Int.ofNat_nonneg _

/-! ## `Header` -/

/-- The path a successful `Header` call took, and what it left in the instance. -/
theorem header_ok_inv (env : Deps) (b b' : BitcoinBlock) (extranonce nonce h : String)
    (hok : b.Header env extranonce nonce = (b', .ok h)) :
    ∃ t chain digest root,
      b.Template = some t ∧ b.chain = some chain ∧
      chain.CoinbaseDigest
        (env.serializeCoinbase ⟨b.coinbaseInitial, extranonce, b.coinbaseFinal⟩) = .ok digest ∧
      env.makeHeaderMerkleRoot digest b.merkleSteps = .ok root ∧
      env.blockHeader t.Version t.PrevBlockHash root (sprintfx t.CurrentTime) t.Bits nonce
        = (h, none) ∧
      b'.header = h ∧
      b'.coinbase = env.serializeCoinbase ⟨b.coinbaseInitial, extranonce, b.coinbaseFinal⟩ ∧
      b'.Template = some t := by
  unfold BitcoinBlock.Header at hok
  cases hT : b.Template with
  | none => simp [hT] at hok
  | some t =>
    cases hc : b.chain with
    | none => simp [hT, hc] at hok
    | some chain =>
      simp only [hT, hc] at hok
      cases hd : chain.CoinbaseDigest
          (env.serializeCoinbase ⟨b.coinbaseInitial, extranonce, b.coinbaseFinal⟩) with
      | panic => simp [hd] at hok
      | error e => simp [hd] at hok
      | ok digest =>
        simp only [hd] at hok
        cases hr : env.makeHeaderMerkleRoot digest b.merkleSteps with
        | panic => simp [hr] at hok
        | error e => simp [hr] at hok
        | ok root =>
          simp only [hr] at hok
          cases hb : env.blockHeader t.Version t.PrevBlockHash root
              (sprintfx t.CurrentTime) t.Bits nonce with
          | mk s err =>
            cases err with
            | some e => simp [hb] at hok
            | none =>
              simp only [hb, Prod.mk.injEq, Result.ok.injEq] at hok
              obtain ⟨hb', hs⟩ := hok
              subst hs
              refine ⟨t, chain, digest, root, rfl, rfl, hd, hr, hb, ?_, ?_, ?_⟩
              · rw [← hb']
              · rw [← hb']
              · rw [← hb']

/-- C1: when `Header` succeeds, the template and the chain policy are set, the returned
hex is `blockHeader(Version, PrevBlockHash, root, hex(CurrentTime), Bits, nonce)` with
the template's own previous-block hash, `root` being `makeHeaderMerkleRoot` of the
chain's coinbase digest of `c` and the stored merkle steps, where `c` serializes the
stored prefix, the extranonce and the stored suffix; afterwards the cached header is
the returned string and the cached coinbase is `c`. -/
theorem header_ok_spec (env : Deps) (b b' : BitcoinBlock) (extranonce nonce h : String)
    (hok : b.Header env extranonce nonce = (b', .ok h)) :
    ∃ t chain digest root,
      b.Template = some t ∧ b.chain = some chain ∧
      chain.CoinbaseDigest
        (env.serializeCoinbase ⟨b.coinbaseInitial, extranonce, b.coinbaseFinal⟩) = .ok digest ∧
      env.makeHeaderMerkleRoot digest b.merkleSteps = .ok root ∧
      env.blockHeader t.Version t.PrevBlockHash root (sprintfx t.CurrentTime) t.Bits nonce
        = (h, none) ∧
      b'.header = h ∧
      b'.coinbase = env.serializeCoinbase ⟨b.coinbaseInitial, extranonce, b.coinbaseFinal⟩ := by
  obtain ⟨t, chain, digest, root, h1, h2, h3, h4, h5, h6, h7, _⟩ :=
    header_ok_inv env b b' extranonce nonce h hok
  exact ⟨t, chain, digest, root, h1, h2, h3, h4, h5, h6, h7⟩

/-- C1 on the toy instance: the header of extranonce `0000` and nonce `00000000`. -/
theorem header_ok_spec_witness :
    ∃ t chain digest root,
      demoBlock.Template = some t ∧ demoBlock.chain = some chain ∧
      chain.CoinbaseDigest
        (demoDeps.serializeCoinbase
          ⟨demoBlock.coinbaseInitial, "0000", demoBlock.coinbaseFinal⟩) = .ok digest ∧
      demoDeps.makeHeaderMerkleRoot digest demoBlock.merkleSteps = .ok root ∧
      demoDeps.blockHeader t.Version t.PrevBlockHash root (sprintfx t.CurrentTime) t.Bits
        "00000000"
        = ("000000010011223344556677000000019000004706f6f6c5132cc499602d21d00ffff00000000",
            none) ∧
      (demoBlock.Header demoDeps "0000" "00000000").1.header
        = "000000010011223344556677000000019000004706f6f6c5132cc499602d21d00ffff00000000" ∧
      (demoBlock.Header demoDeps "0000" "00000000").1.coinbase
        = demoDeps.serializeCoinbase
            ⟨demoBlock.coinbaseInitial, "0000", demoBlock.coinbaseFinal⟩ :=
  header_ok_spec demoDeps demoBlock (demoBlock.Header demoDeps "0000" "00000000").1
    "0000" "00000000"
    "000000010011223344556677000000019000004706f6f6c5132cc499602d21d00ffff00000000" rfl

/-- What one `Header` call leaves and returns, branch by branch. -/
theorem header_cases (env : Deps) (b : BitcoinBlock) (extranonce nonce : String) :
    (b.Template = none ∧ b.Header env extranonce nonce = (b, .error "Generate work first")) ∨
    (∃ t, b.Template = some t ∧
      ∃ r : Result String,
        (b.Header env extranonce nonce =
            ({ b with coinbase :=
                env.serializeCoinbase ⟨b.coinbaseInitial, extranonce, b.coinbaseFinal⟩ }, r) ∧
          ∀ v, r ≠ .ok v) ∨
        (∃ chain digest root,
          b.chain = some chain ∧
          chain.CoinbaseDigest
            (env.serializeCoinbase ⟨b.coinbaseInitial, extranonce, b.coinbaseFinal⟩)
              = .ok digest ∧
          env.makeHeaderMerkleRoot digest b.merkleSteps = .ok root ∧
          b.Header env extranonce nonce =
            ({ b with
                coinbase :=
                  env.serializeCoinbase ⟨b.coinbaseInitial, extranonce, b.coinbaseFinal⟩,
                header :=
                  (env.blockHeader t.Version t.PrevBlockHash root (sprintfx t.CurrentTime)
                    t.Bits nonce).1 }, r))) := by
  unfold BitcoinBlock.Header
  cases hT : b.Template with
  | none => exact Or.inl ⟨rfl, rfl⟩
  | some t =>
    refine Or.inr ⟨t, rfl, ?_⟩
    cases hc : b.chain with
    | none => exact ⟨.panic, Or.inl ⟨rfl, fun v hv => by cases hv⟩⟩
    | some chain =>
      simp only []
      cases hd : chain.CoinbaseDigest
          (env.serializeCoinbase ⟨b.coinbaseInitial, extranonce, b.coinbaseFinal⟩) with
      | panic => exact ⟨.panic, Or.inl ⟨rfl, fun v hv => by cases hv⟩⟩
      | error e => exact ⟨.error e, Or.inl ⟨rfl, fun v hv => by cases hv⟩⟩
      | ok digest =>
        simp only []
        cases hr : env.makeHeaderMerkleRoot digest b.merkleSteps with
        | panic => exact ⟨.panic, Or.inl ⟨rfl, fun v hv => by cases hv⟩⟩
        | error e => exact ⟨.error e, Or.inl ⟨rfl, fun v hv => by cases hv⟩⟩
        | ok root =>
          simp only []
          cases hb : env.blockHeader t.Version t.PrevBlockHash root
              (sprintfx t.CurrentTime) t.Bits nonce with
          | mk s err =>
            cases err with
            | some e =>
              exact ⟨.error e, Or.inr ⟨chain, digest, root, rfl, hd, hr, by rw [hb]⟩⟩
            | none =>
              exact ⟨.ok s, Or.inr ⟨chain, digest, root, rfl, hd, hr, by rw [hb]⟩⟩

/-- The result of `Header` and the two cached fields it leaves depend on the instance
only through the template, the chain policy, the prefix, the suffix and the merkle
steps (and, for the cached fields it does not reach, on their old value). -/
theorem header_congr (env : Deps) (b1 b2 : BitcoinBlock) (extranonce nonce : String)
    (hchain : b1.chain = b2.chain) (hT : b1.Template = b2.Template)
    (hi : b1.coinbaseInitial = b2.coinbaseInitial)
    (hf : b1.coinbaseFinal = b2.coinbaseFinal)
    (hm : b1.merkleSteps = b2.merkleSteps) :
    (b1.Header env extranonce nonce).2 = (b2.Header env extranonce nonce).2 := by
  unfold BitcoinBlock.Header
  simp only [hchain, hT, hi, hf, hm]
  cases b2.Template with
  | none => rfl
  | some t =>
    simp only []
    cases b2.chain with
    | none => rfl
    | some chain =>
      simp only []
      cases chain.CoinbaseDigest
          (env.serializeCoinbase ⟨b2.coinbaseInitial, extranonce, b2.coinbaseFinal⟩) with
      | panic => rfl
      | error e => rfl
      | ok digest =>
        simp only []
        cases env.makeHeaderMerkleRoot digest b2.merkleSteps with
        | panic => rfl
        | error e => rfl
        | ok root =>
          simp only []
          cases (env.blockHeader t.Version t.PrevBlockHash root
              (sprintfx t.CurrentTime) t.Bits nonce).2 with
          | some e => rfl
          | none => rfl

/-- A second `Header` call with the same arguments returns what the first returned and
leaves the instance as the first left it. -/
theorem header_twice (env : Deps) (b : BitcoinBlock) (extranonce nonce : String) :
    (b.Header env extranonce nonce).1.Header env extranonce nonce
      = b.Header env extranonce nonce := by
  cases hT : b.Template with
  | none => simp [BitcoinBlock.Header, hT]
  | some t =>
    cases hc : b.chain with
    | none => simp [BitcoinBlock.Header, hT, hc]
    | some chain =>
      cases hd : chain.CoinbaseDigest
          (env.serializeCoinbase ⟨b.coinbaseInitial, extranonce, b.coinbaseFinal⟩) with
      | panic => simp [BitcoinBlock.Header, hT, hc, hd]
      | error e => simp [BitcoinBlock.Header, hT, hc, hd]
      | ok digest =>
        cases hr : env.makeHeaderMerkleRoot digest b.merkleSteps with
        | panic => simp [BitcoinBlock.Header, hT, hc, hd, hr]
        | error e => simp [BitcoinBlock.Header, hT, hc, hd, hr]
        | ok root =>
          cases hb : env.blockHeader t.Version t.PrevBlockHash root
              (sprintfx t.CurrentTime) t.Bits nonce with
          | mk s err =>
            cases err with
            | some e => simp [BitcoinBlock.Header, hT, hc, hd, hr, hb]
            | none => simp [BitcoinBlock.Header, hT, hc, hd, hr, hb]

/-- C5: `Header` is deterministic and idempotent. Two instance states that agree on
chain policy, template, coinbase prefix, coinbase suffix and merkle steps (whatever
their cached coinbase and cached header) return the same result for the same extranonce
and nonce; and calling `Header` twice in a row returns the same result both times and
leaves the state the first call left. -/
theorem header_deterministic_idempotent (env : Deps) (b1 b2 : BitcoinBlock)
    (extranonce nonce : String)
    (hchain : b1.chain = b2.chain) (hT : b1.Template = b2.Template)
    (hi : b1.coinbaseInitial = b2.coinbaseInitial)
    (hf : b1.coinbaseFinal = b2.coinbaseFinal)
    (hm : b1.merkleSteps = b2.merkleSteps) :
    (b1.Header env extranonce nonce).2 = (b2.Header env extranonce nonce).2 ∧
    ((b1.Header env extranonce nonce).1.Header env extranonce nonce).2
      = (b1.Header env extranonce nonce).2 ∧
    ((b1.Header env extranonce nonce).1.Header env extranonce nonce).1
      = (b1.Header env extranonce nonce).1 := by
  refine ⟨header_congr env b1 b2 extranonce nonce hchain hT hi hf hm, ?_, ?_⟩
  · rw [header_twice]
  · rw [header_twice]

/-- C5 on the toy instance: a fresh state and one with stale caches. -/
theorem header_deterministic_idempotent_witness :
    (demoBlock.Header demoDeps "0000" "00000000").2
      = (({ demoBlock with coinbase := "ff", header := "ee" } : BitcoinBlock).Header
          demoDeps "0000" "00000000").2 ∧
    ((demoBlock.Header demoDeps "0000" "00000000").1.Header demoDeps "0000" "00000000").2
      = (demoBlock.Header demoDeps "0000" "00000000").2 ∧
    ((demoBlock.Header demoDeps "0000" "00000000").1.Header demoDeps "0000" "00000000").1
      = (demoBlock.Header demoDeps "0000" "00000000").1 :=
  header_deterministic_idempotent demoDeps demoBlock
    { demoBlock with coinbase := "ff", header := "ee" } "0000" "00000000" rfl rfl rfl rfl rfl

/-- C9: a `Header` call, whatever its outcome, leaves the merkle steps, the coinbase
prefix and suffix, the reversed previous-block hash, the template, the chain policy and
the field `arbitrary` as they were. The cached coinbase afterwards is the old one (no
template) or the fresh serialization of prefix, extranonce and suffix; the cached header
afterwards is the old one (the call stopped before `blockHeader`) or the string
`blockHeader` returned: neither is built from its old value. -/
theorem header_frame (env : Deps) (b : BitcoinBlock) (extranonce nonce : String) :
    (b.Header env extranonce nonce).1.merkleSteps = b.merkleSteps ∧
    (b.Header env extranonce nonce).1.coinbaseInitial = b.coinbaseInitial ∧
    (b.Header env extranonce nonce).1.coinbaseFinal = b.coinbaseFinal ∧
    (b.Header env extranonce nonce).1.reversePrevBlockHash = b.reversePrevBlockHash ∧
    (b.Header env extranonce nonce).1.Template = b.Template ∧
    (b.Header env extranonce nonce).1.chain = b.chain ∧
    (b.Header env extranonce nonce).1.arbitrary = b.arbitrary ∧
    ((b.Header env extranonce nonce).1.coinbase = b.coinbase ∨
      (b.Header env extranonce nonce).1.coinbase
        = env.serializeCoinbase ⟨b.coinbaseInitial, extranonce, b.coinbaseFinal⟩) ∧
    ((b.Header env extranonce nonce).1.header = b.header ∨
      ∃ t chain digest root,
        b.Template = some t ∧ b.chain = some chain ∧
        chain.CoinbaseDigest
          (env.serializeCoinbase ⟨b.coinbaseInitial, extranonce, b.coinbaseFinal⟩)
            = .ok digest ∧
        env.makeHeaderMerkleRoot digest b.merkleSteps = .ok root ∧
        (b.Header env extranonce nonce).1.header
          = (env.blockHeader t.Version t.PrevBlockHash root (sprintfx t.CurrentTime)
              t.Bits nonce).1) := by
  rcases header_cases env b extranonce nonce with ⟨_, h⟩ | ⟨t, hT, r, ⟨h, _⟩ | h⟩
  · rw [h]
    exact ⟨rfl, rfl, rfl, rfl, rfl, rfl, rfl, Or.inl rfl, Or.inl rfl⟩
  · rw [h]
    exact ⟨rfl, rfl, rfl, rfl, rfl, rfl, rfl, Or.inr rfl, Or.inl rfl⟩
  · obtain ⟨chain, digest, root, hc, hd, hr, h⟩ := h
    rw [h]
    exact ⟨rfl, rfl, rfl, rfl, rfl, rfl, rfl, Or.inr rfl,
      Or.inr ⟨t, chain, digest, root, hT, hc, hd, hr, rfl⟩⟩

/-! ## `Sum` and `Submit` -/

/-- C3: on an instance with a chain policy and a non-empty cached header whose header
digest succeeds with `d`, `Sum` returns, with no error, the integer that `SetBytes`
reads big-endian from the reversed bytes decoded from `d`; it is the little-endian value
of the decoded bytes and it is not negative. -/
theorem sum_ok_spec (b : BitcoinBlock) (chain : Blockchain) (d : String)
    (hchain : b.chain = some chain) (hheader : b.header ≠ "")
    (hd : chain.HeaderDigest b.header = .ok d) :
    b.Sum = .ok (bigIntSetBytes (hexDecodeString d).1.reverse) ∧
    bigIntSetBytes (hexDecodeString d).1.reverse
      = (littleEndianValue (hexDecodeString d).1 : Int) ∧
    0 ≤ bigIntSetBytes (hexDecodeString d).1.reverse := by
  refine ⟨?_, bigIntSetBytes_reverse _, bigIntSetBytes_nonneg _⟩
  unfold BitcoinBlock.Sum
  simp only [hchain, hheader, hd, if_false, reverse]

/-- C3 on the toy instance with cached header `01ff`. -/
theorem sum_ok_spec_witness :
    ({ demoBlock with header := "01ff" } : BitcoinBlock).Sum
      = .ok (bigIntSetBytes (hexDecodeString "01ff").1.reverse) ∧
    bigIntSetBytes (hexDecodeString "01ff").1.reverse
      = (littleEndianValue (hexDecodeString "01ff").1 : Int) ∧
    0 ≤ bigIntSetBytes (hexDecodeString "01ff").1.reverse :=
  sum_ok_spec { demoBlock with header := "01ff" } demoChain "01ff" rfl (by decide) rfl

/-- C4: right after a successful `Header` call that returned a non-empty header,
`Submit` succeeds and returns the cached header, then the cached coinbase, then the raw
data of every template transaction in template order, as one string. -/
theorem submit_after_header (env : Deps) (b b' : BitcoinBlock)
    (extranonce nonce h : String)
    (hok : b.Header env extranonce nonce = (b', .ok h)) (hne : h ≠ "") :
    ∃ t, b'.Template = some t ∧ b'.header = h ∧
      b'.coinbase = env.serializeCoinbase ⟨b.coinbaseInitial, extranonce, b.coinbaseFinal⟩ ∧
      b'.Submit
        = .ok (b'.header ++ b'.coinbase ++ String.join (t.Transactions.map fun tx => tx.Data))
      := by
  obtain ⟨t, chain, digest, root, _, _, _, _, _, hh, hcb, hT'⟩ :=
    header_ok_inv env b b' extranonce nonce h hok
  refine ⟨t, hT', hh, hcb, ?_⟩
  have hne' : b'.header ≠ "" := by rw [hh]; exact hne
  simp only [BitcoinBlock.Submit, hne', if_false, hT', BitcoinBlock.createSubmissionHex]

/-- C4 on the toy instance, after one `Header` call. -/
theorem submit_after_header_witness :
    ∃ t, (demoBlock.Header demoDeps "0000" "00000000").1.Template = some t ∧
      (demoBlock.Header demoDeps "0000" "00000000").1.header
        = "000000010011223344556677000000019000004706f6f6c5132cc499602d21d00ffff00000000" ∧
      (demoBlock.Header demoDeps "0000" "00000000").1.coinbase
        = demoDeps.serializeCoinbase
            ⟨demoBlock.coinbaseInitial, "0000", demoBlock.coinbaseFinal⟩ ∧
      (demoBlock.Header demoDeps "0000" "00000000").1.Submit
        = .ok ((demoBlock.Header demoDeps "0000" "00000000").1.header
            ++ (demoBlock.Header demoDeps "0000" "00000000").1.coinbase
            ++ String.join (t.Transactions.map fun tx => tx.Data)) :=
  submit_after_header demoDeps demoBlock (demoBlock.Header demoDeps "0000" "00000000").1
    "0000" "00000000"
    "000000010011223344556677000000019000004706f6f6c5132cc499602d21d00ffff00000000"
    rfl (by decide)

/-- The block instance a successful `GenerateWork` returns has an empty cached header,
an empty cached coinbase and the chain policy `GetChain` gave. -/
theorem generateWork_fresh (env : Deps) (c c' : Int) (template : Option Template)
    (chainName arbitrary payout : String) (reserved : Int) (blk : BitcoinBlock) (w : Work)
    (hok : GenerateWork env c template chainName arbitrary payout reserved
      = (c', .ok (blk, w))) :
    blk.header = "" ∧ blk.coinbase = "" ∧ blk.chain = env.GetChain chainName := by
  unfold GenerateWork at hok
  cases template with
  | none => simp at hok
  | some t =>
    simp only [] at hok
    cases hr : env.reverseHex4Bytes t.PrevBlockHash with
    | panic => simp [hr] at hok
    | error e => simp [hr] at hok
    | ok rev =>
      simp only [hr] at hok
      cases hm : env.MerkleSteps t with
      | panic => simp [hm] at hok
      | error e => simp [hm] at hok
      | ok steps =>
        simp only [hm, Prod.mk.injEq, Result.ok.injEq] at hok
        obtain ⟨_, hblk, _⟩ := hok
        subst hblk
        exact ⟨rfl, rfl, rfl⟩

/-- C6, the claim as written fails: on the zero-valued instance the cached header is
empty and `Sum` fails with the missing-chain error, not with "Generate header first". -/
theorem sum_zero_value_counterexample :
    BitcoinBlock.zero.header = "" ∧
    BitcoinBlock.zero.Sum = .error "CalculateSum: Missing blockchain interface" ∧
    BitcoinBlock.zero.Sum ≠ .error "Generate header first" := by
  refine ⟨rfl, rfl, ?_⟩
  decide

/-- C6, amended: on every instance whose cached header is empty, `Submit` fails with
"Generate header first"; `Sum` fails with "Generate header first" when the instance has
a chain policy and with "CalculateSum: Missing blockchain interface" when it has none
(the zero-valued instance); neither returns a value. The instance a successful
`GenerateWork` returns has an empty cached header. -/
theorem sum_submit_before_header (b : BitcoinBlock) (hb : b.header = "") :
    b.Submit = .error "Generate header first" ∧
    (b.chain ≠ none → b.Sum = .error "Generate header first") ∧
    (b.chain = none → b.Sum = .error "CalculateSum: Missing blockchain interface") ∧
    (∀ (env : Deps) (c c' : Int) (template : Option Template)
        (chainName arbitrary payout : String) (reserved : Int) (blk : BitcoinBlock)
        (w : Work),
      GenerateWork env c template chainName arbitrary payout reserved = (c', .ok (blk, w)) →
      blk.header = "") := by
  refine ⟨?_, ?_, ?_, ?_⟩
  · simp [BitcoinBlock.Submit, hb]
  · intro hc
    cases hch : b.chain with
    | none => exact absurd hch hc
    | some chain => simp [BitcoinBlock.Sum, hch, hb]
  · intro hc
    simp [BitcoinBlock.Sum, hc]
  · intro env c c' template chainName arbitrary payout reserved blk w hok
    exact (generateWork_fresh env c c' template chainName arbitrary payout reserved
      blk w hok).1

/-- C6 as amended, on the fresh toy instance. -/
theorem sum_submit_before_header_witness :
    demoBlock.Submit = .error "Generate header first" ∧
    (demoBlock.chain ≠ none → demoBlock.Sum = .error "Generate header first") ∧
    (demoBlock.chain = none →
      demoBlock.Sum = .error "CalculateSum: Missing blockchain interface") ∧
    (∀ (env : Deps) (c c' : Int) (template : Option Template)
        (chainName arbitrary payout : String) (reserved : Int) (blk : BitcoinBlock)
        (w : Work),
      GenerateWork env c template chainName arbitrary payout reserved = (c', .ok (blk, w)) →
      blk.header = "") :=
  sum_submit_before_header demoBlock rfl

/-! ## `GenerateWork` -/

/-- C7: with a nil template `GenerateWork` fails with "Template cannot be null" for
every chain name, arbitrary string, payout script and reserved length; it returns no
block instance and no Work descriptor, and the job counter keeps its value. -/
theorem generateWork_nil_template (env : Deps) (c : Int)
    (chainName arbitrary payout : String) (reserved : Int) :
    GenerateWork env c none chainName arbitrary payout reserved
      = (c, .error "Template cannot be null") := rfl

/-- What a successful `GenerateWork` returns, field by field. -/
theorem generateWork_ok (env : Deps) (c c' : Int) (template : Option Template)
    (chainName arbitrary payout : String) (reserved : Int) (blk : BitcoinBlock) (w : Work)
    (hok : GenerateWork env c template chainName arbitrary payout reserved
      = (c', .ok (blk, w))) :
    ∃ t rev steps,
      template = some t ∧ env.reverseHex4Bytes t.PrevBlockHash = .ok rev ∧
      env.MerkleSteps t = .ok steps ∧ c' = wrapInt (c + 1) ∧
      blk =
        { Template := some t, reversePrevBlockHash := rev,
          coinbaseInitial :=
            env.serializeInitial (env.CoinbaseInitial t
              (toUint (wrapInt
                (((env.bytesWithLengthHeader (bytesOfString arbitrary)).length : Int)
                  + reserved)))),
          coinbaseFinal :=
            hexEncodeToString (env.bytesWithLengthHeader (bytesOfString arbitrary))
              ++ env.serializeFinal (env.CoinbaseFinal t payout),
          arbitrary := "", merkleSteps := steps, coinbase := "", header := "",
          chain := env.GetChain chainName } ∧
      w =
        [.str (sprintf08x c), .str rev,
          .str (env.serializeInitial (env.CoinbaseInitial t
              (toUint (wrapInt
                (((env.bytesWithLengthHeader (bytesOfString arbitrary)).length : Int)
                  + reserved))))),
          .str ("" ++ (hexEncodeToString (env.bytesWithLengthHeader (bytesOfString arbitrary))
              ++ env.serializeFinal (env.CoinbaseFinal t payout))),
          .strs steps, .str (sprintf08xUint t.Version), .str t.Bits,
          .str (sprintfx t.CurrentTime)] := by
  unfold GenerateWork at hok
  cases template with
  | none => simp at hok
  | some t =>
    simp only [] at hok
    cases hr : env.reverseHex4Bytes t.PrevBlockHash with
    | panic => simp [hr] at hok
    | error e => simp [hr] at hok
    | ok rev =>
      simp only [hr] at hok
      cases hm : env.MerkleSteps t with
      | panic => simp [hm] at hok
      | error e => simp [hm] at hok
      | ok steps =>
        simp only [hm, Prod.mk.injEq, Result.ok.injEq] at hok
        obtain ⟨hc, hblk, hw⟩ := hok
        exact ⟨t, rev, steps, rfl, hr, hm, hc.symm, hblk.symm, hw.symm⟩

/-- A `GenerateWork` call that does not succeed leaves the job counter as it was. -/
theorem generateWork_not_ok (env : Deps) (c : Int) (template : Option Template)
    (chainName arbitrary payout : String) (reserved : Int)
    (hnot : ∀ v, (GenerateWork env c template chainName arbitrary payout reserved).2 ≠ .ok v) :
    (GenerateWork env c template chainName arbitrary payout reserved).1 = c := by
  unfold GenerateWork at hnot ⊢
  cases template with
  | none => rfl
  | some t =>
    simp only [] at hnot ⊢
    cases hr : env.reverseHex4Bytes t.PrevBlockHash with
    | panic => rfl
    | error e => rfl
    | ok rev =>
      simp only [hr] at hnot ⊢
      cases hm : env.MerkleSteps t with
      | panic => rfl
      | error e => rfl
      | ok steps =>
        simp only [hm] at hnot
        exact absurd rfl (hnot _)

theorem empty_append (s : String) : "" ++ s = s := by
  apply String.ext
  simp

/-! ## Hexadecimal numerals -/

theorem fromHexChar_hexDigit (d : Nat) (h : d < 16) : fromHexChar (hexDigit d) = some d := by
  interval_cases d <;> rfl

theorem isLowerHexDigit_hexDigit (d : Nat) (h : d < 16) : isLowerHexDigit (hexDigit d) := by
  unfold isLowerHexDigit
  interval_cases d <;> decide

theorem parseHexAux_hexDigitsAux (fuel n : Nat) (acc : List Char) (h : n < fuel) :
    parseHexAux (hexDigitsAux fuel n acc) 0 = parseHexAux acc n := by
  induction fuel generalizing n acc with
  | zero => omega
  | succ fuel ih =>
    unfold hexDigitsAux
    split
    · rename_i h16
      simp [parseHexAux, fromHexChar_hexDigit n h16]
    · rename_i h16
      rw [ih (n / 16) _ (by omega)]
      have hmod : n % 16 < 16 := Nat.mod_lt _ (by norm_num)
      simp only [parseHexAux, fromHexChar_hexDigit (n % 16) hmod]
      congr 1
      omega

theorem parseHexAux_replicate_zero (k : Nat) (xs : List Char) :
    parseHexAux (List.replicate k '0' ++ xs) 0 = parseHexAux xs 0 := by
  induction k with
  | zero => rfl
  | succ k ih =>
    rw [List.replicate_succ, List.cons_append]
    have h0 : fromHexChar '0' = some 0 := rfl
    simp only [parseHexAux, h0]
    exact ih

theorem hexDigitsAux_lower (fuel n : Nat) (acc : List Char) :
    ∀ ch ∈ hexDigitsAux fuel n acc, isLowerHexDigit ch ∨ ch ∈ acc := by
  induction fuel generalizing n acc with
  | zero =>
    intro ch hch
    exact Or.inr hch
  | succ fuel ih =>
    intro ch hch
    unfold hexDigitsAux at hch
    split at hch
    · rename_i h16
      rcases List.mem_cons.mp hch with h | h
      · exact Or.inl (h ▸ isLowerHexDigit_hexDigit n h16)
      · exact Or.inr h
    · rcases ih (n / 16) _ ch hch with h | h
      · exact Or.inl h
      · rcases List.mem_cons.mp h with h | h
        · exact Or.inl (h ▸ isLowerHexDigit_hexDigit (n % 16) (Nat.mod_lt _ (by norm_num)))
        · exact Or.inr h

theorem zeroPad_length (width : Nat) (ds : List Char) : width ≤ (zeroPad width ds).length := by
  simp only [zeroPad, List.length_append, List.length_replicate]
  omega

theorem zeroPad_lower (width : Nat) (ds : List Char)
    (h : ∀ ch ∈ ds, isLowerHexDigit ch) : ∀ ch ∈ zeroPad width ds, isLowerHexDigit ch := by
  intro ch hch
  rcases List.mem_append.mp hch with h0 | h1
  · rw [(List.mem_replicate.mp h0).2]
    exact Or.inl (by decide)
  · exact h ch h1

theorem parseHexAux_zeroPad (width n : Nat) :
    parseHexAux (zeroPad width (hexDigits n)) 0 = some n := by
  unfold zeroPad hexDigits
  rw [parseHexAux_replicate_zero, parseHexAux_hexDigitsAux _ _ _ (Nat.lt_succ_self n)]
  rfl

/-- For a counter that is not negative, `%08x` gives at least 8 characters, all of them
lowercase hexadecimal digits, and they read back as the counter. -/
theorem sprintf08x_nonneg (c : Int) (h : 0 ≤ c) :
    sprintf08x c = String.mk (zeroPad 8 (hexDigits c.toNat)) ∧
    8 ≤ (sprintf08x c).length ∧
    (∀ ch ∈ (sprintf08x c).data, isLowerHexDigit ch) ∧
    parseHex (sprintf08x c) = some c.toNat := by
  have hs : sprintf08x c = String.mk (zeroPad 8 (hexDigits c.toNat)) := by
    unfold sprintf08x
    rw [if_neg (by omega)]
    congr 3
    omega
  have hlen : 8 ≤ (zeroPad 8 (hexDigits c.toNat)).length := zeroPad_length _ _
  refine ⟨hs, ?_, ?_, ?_⟩
  · rw [hs]
    exact hlen
  · rw [hs]
    apply zeroPad_lower
    intro ch hch
    rcases hexDigitsAux_lower _ _ _ ch hch with h1 | h1
    · exact h1
    · cases h1
  · rw [hs]
    unfold parseHex
    have hne : (String.mk (zeroPad 8 (hexDigits c.toNat))).data ≠ [] := by
      intro h0
      have : (zeroPad 8 (hexDigits c.toNat)).length = 0 := by
        show (String.mk (zeroPad 8 (hexDigits c.toNat))).data.length = 0
        rw [h0]
        rfl
      omega
    rw [if_neg hne]
    exact parseHexAux_zeroPad 8 c.toNat

/-- C2: a successful `GenerateWork` returns a Work descriptor of exactly 8 elements, in
this order: the job counter before the call printed with `%08x`, the word-reversed
previous-block hash, the coinbase prefix, the coinbase suffix (the hex of the
length-prefixed arbitrary bytes, once, followed by the serialized `CoinbaseFinal` of the
payout script), the merkle steps, the template version printed with `%08x`, the template
bits, the template time printed with `%x`. Elements 1 to 4 are the reversed hash,
prefix, suffix and merkle steps stored in the returned instance. For a counter that is
not negative, element 0 has at least 8 characters, all lowercase hexadecimal digits,
and reads back as the counter. -/
theorem generateWork_work_spec (env : Deps) (c c' : Int) (template : Option Template)
    (chainName arbitrary payout : String) (reserved : Int) (blk : BitcoinBlock) (w : Work)
    (hok : GenerateWork env c template chainName arbitrary payout reserved
      = (c', .ok (blk, w))) :
    ∃ t, template = some t ∧ blk.Template = some t ∧
      w.length = 8 ∧
      w = [.str (sprintf08x c), .str blk.reversePrevBlockHash, .str blk.coinbaseInitial,
            .str blk.coinbaseFinal, .strs blk.merkleSteps, .str (sprintf08xUint t.Version),
            .str t.Bits, .str (sprintfx t.CurrentTime)] ∧
      env.reverseHex4Bytes t.PrevBlockHash = .ok blk.reversePrevBlockHash ∧
      blk.coinbaseInitial
        = env.serializeInitial (env.CoinbaseInitial t
            (toUint (wrapInt
              (((env.bytesWithLengthHeader (bytesOfString arbitrary)).length : Int)
                + reserved)))) ∧
      blk.coinbaseFinal
        = hexEncodeToString (env.bytesWithLengthHeader (bytesOfString arbitrary))
            ++ env.serializeFinal (env.CoinbaseFinal t payout) ∧
      env.MerkleSteps t = .ok blk.merkleSteps ∧
      (0 ≤ c →
        8 ≤ (sprintf08x c).length ∧ (∀ ch ∈ (sprintf08x c).data, isLowerHexDigit ch) ∧
        parseHex (sprintf08x c) = some c.toNat) := by
  obtain ⟨t, rev, steps, hT, hr, hm, _, hblk, hw⟩ :=
    generateWork_ok env c c' template chainName arbitrary payout reserved blk w hok
  subst hblk
  refine ⟨t, hT, rfl, ?_, ?_, hr, rfl, rfl, hm, ?_⟩
  · rw [hw]
    rfl
  · rw [hw, empty_append]
  · intro hc
    exact (sprintf08x_nonneg c hc).2

/-- C2 on the toy instance: the first job, counter 0. -/
theorem generateWork_work_spec_witness :
    ∃ t, some demoTemplate = some t ∧ demoBlock.Template = some t ∧
      ([.str "00000000", .str "3322110077665544", .str "000000019",
        .str "04706f6f6c5132", .strs ["cc"], .str "00000001", .str "1d00ffff",
        .str "499602d2"] : Work).length = 8 ∧
      ([.str "00000000", .str "3322110077665544", .str "000000019",
        .str "04706f6f6c5132", .strs ["cc"], .str "00000001", .str "1d00ffff",
        .str "499602d2"] : Work)
        = [.str (sprintf08x 0), .str demoBlock.reversePrevBlockHash,
            .str demoBlock.coinbaseInitial, .str demoBlock.coinbaseFinal,
            .strs demoBlock.merkleSteps, .str (sprintf08xUint t.Version), .str t.Bits,
            .str (sprintfx t.CurrentTime)] ∧
      demoDeps.reverseHex4Bytes t.PrevBlockHash = .ok demoBlock.reversePrevBlockHash ∧
      demoBlock.coinbaseInitial
        = demoDeps.serializeInitial (demoDeps.CoinbaseInitial t
            (toUint (wrapInt
              (((demoDeps.bytesWithLengthHeader (bytesOfString "pool")).length : Int)
                + 4)))) ∧
      demoBlock.coinbaseFinal
        = hexEncodeToString (demoDeps.bytesWithLengthHeader (bytesOfString "pool"))
            ++ demoDeps.serializeFinal (demoDeps.CoinbaseFinal t "51") ∧
      demoDeps.MerkleSteps t = .ok demoBlock.merkleSteps ∧
      ((0 : Int) ≤ 0 →
        8 ≤ (sprintf08x 0).length ∧ (∀ ch ∈ (sprintf08x 0).data, isLowerHexDigit ch) ∧
        parseHex (sprintf08x 0) = some (0 : Int).toNat) :=
  generateWork_work_spec demoDeps 0 1 (some demoTemplate) "demo" "pool" "51" 4 demoBlock
    [.str "00000000", .str "3322110077665544", .str "000000019",
      .str "04706f6f6c5132", .strs ["cc"], .str "00000001", .str "1d00ffff",
      .str "499602d2"]
    rfl

/-! ## Job IDs over a run of calls -/

theorem wrapInt_succ (c : Int) (h0 : 0 ≤ c) (h1 : c + 1 < 2 ^ 63) : wrapInt (c + 1) = c + 1 := by
  unfold wrapInt intBits
  norm_num at h1 ⊢
  omega

/-- One call, from a counter that cannot overflow: either it succeeds, issues the
counter and adds one to it, or it does not succeed, issues nothing and leaves the
counter. -/
theorem generateWork_step (env : Deps) (c : Int) (call : Call)
    (h0 : 0 ≤ c) (h1 : c + 1 < 2 ^ 63) :
    ((GenerateWork env c call.template call.chainName call.arbitrary
          call.poolPayoutPubScriptKey call.reservedArbitraryByteLength).1 = c + 1 ∧
      jobID (GenerateWork env c call.template call.chainName call.arbitrary
          call.poolPayoutPubScriptKey call.reservedArbitraryByteLength).2
        = some (sprintf08x c) ∧
      (GenerateWork env c call.template call.chainName call.arbitrary
          call.poolPayoutPubScriptKey call.reservedArbitraryByteLength).2.isOk = true) ∨
    ((GenerateWork env c call.template call.chainName call.arbitrary
          call.poolPayoutPubScriptKey call.reservedArbitraryByteLength).1 = c ∧
      jobID (GenerateWork env c call.template call.chainName call.arbitrary
          call.poolPayoutPubScriptKey call.reservedArbitraryByteLength).2 = none ∧
      (GenerateWork env c call.template call.chainName call.arbitrary
          call.poolPayoutPubScriptKey call.reservedArbitraryByteLength).2.isOk = false) := by
  cases hg : (GenerateWork env c call.template call.chainName call.arbitrary
      call.poolPayoutPubScriptKey call.reservedArbitraryByteLength).2 with
  | ok v =>
    obtain ⟨blk, w⟩ := v
    have hpair : GenerateWork env c call.template call.chainName call.arbitrary
        call.poolPayoutPubScriptKey call.reservedArbitraryByteLength
        = ((GenerateWork env c call.template call.chainName call.arbitrary
            call.poolPayoutPubScriptKey call.reservedArbitraryByteLength).1,
          .ok (blk, w)) := by
      rw [← hg]
    obtain ⟨t, rev, steps, _, _, _, hc, _, hw⟩ :=
      generateWork_ok env c _ call.template call.chainName call.arbitrary
        call.poolPayoutPubScriptKey call.reservedArbitraryByteLength blk w hpair
    refine Or.inl ⟨?_, ?_, rfl⟩
    · rw [hc]
      exact wrapInt_succ c h0 h1
    · rw [hw]
      rfl
  | error e =>
    refine Or.inr ⟨?_, rfl, rfl⟩
    apply generateWork_not_ok
    intro v hv
    rw [hg] at hv
    cases hv
  | panic =>
    refine Or.inr ⟨?_, rfl, rfl⟩
    apply generateWork_not_ok
    intro v hv
    rw [hg] at hv
    cases hv

/-- Over a run that cannot overflow the counter, the job IDs of the successful calls
read as the consecutive numbers from the starting counter on, there are as many of them
as successful calls, and the counter ends that many higher. -/
theorem runCalls_jobIDs (env : Deps) (calls : List Call) :
    ∀ c0 : Int, 0 ≤ c0 → c0 + calls.length < 2 ^ 63 →
      (jobIDs (runCalls env c0 calls).2).map parseHex
        = (List.range' c0.toNat (jobIDs (runCalls env c0 calls).2).length).map some ∧
      (runCalls env c0 calls).1 = c0 + (jobIDs (runCalls env c0 calls).2).length ∧
      (jobIDs (runCalls env c0 calls).2).length
        = ((runCalls env c0 calls).2.filter Result.isOk).length := by
  induction calls with
  | nil =>
    intro c0 _ _
    simp [runCalls, jobIDs]
  | cons call rest ih =>
    intro c0 h0 hb
    have hb' : c0 + 1 + (rest.length : Int) < 2 ^ 63 := by
      simp only [List.length_cons, Nat.cast_add, Nat.cast_one] at hb
      omega
    have h1 : c0 + 1 < 2 ^ 63 := by omega
    simp only [runCalls, jobIDs]
    rcases generateWork_step env c0 call h0 h1 with ⟨hc, hid, hok⟩ | ⟨hc, hid, hok⟩
    · obtain ⟨ih1, ih2, ih3⟩ := ih (c0 + 1) (by omega) hb'
      simp only [jobIDs] at ih1 ih2 ih3
      rw [hc, List.filterMap_cons_some hid, List.filter_cons_of_pos hok]
      refine ⟨?_, ?_, ?_⟩
      · rw [List.map_cons, ih1, List.length_cons, List.range'_succ, List.map_cons,
          (sprintf08x_nonneg c0 h0).2.2.2]
        have : (c0 + 1).toNat = c0.toNat + 1 := by omega
        rw [this]
      · rw [ih2, List.length_cons]
        push_cast
        ring
      · rw [List.length_cons, List.length_cons, ih3]
    · obtain ⟨ih1, ih2, ih3⟩ := ih c0 h0 (by omega)
      simp only [jobIDs] at ih1 ih2 ih3
      have hok' : ¬ (GenerateWork env c0 call.template call.chainName call.arbitrary
          call.poolPayoutPubScriptKey call.reservedArbitraryByteLength).2.isOk = true := by
        rw [hok]
        decide
      rw [hc, List.filterMap_cons_none hid, List.filter_cons_of_neg hok']
      exact ⟨ih1, ih2, ih3⟩

theorem pairwise_idLt_of_range (ids : List String) (s : Nat)
    (h : ids.map parseHex = (List.range' s ids.length).map some) : ids.Pairwise idLt := by
  have hp : ((List.range' s ids.length).map some).Pairwise
      (fun x y : Option Nat => ∃ a b, x = some a ∧ y = some b ∧ a < b) := by
    rw [List.pairwise_map]
    exact (List.pairwise_lt_range' s ids.length).imp fun hab => ⟨_, _, rfl, rfl, hab⟩
  rw [← h, List.pairwise_map] at hp
  exact hp

theorem nodup_of_pairwise_idLt (ids : List String) (h : ids.Pairwise idLt) : ids.Nodup := by
  refine List.Pairwise.imp ?_ h
  intro a b hab heq
  obtain ⟨x, y, hx, hy, hlt⟩ := hab
  subst heq
  rw [hx] at hy
  cases hy
  omega

/-- C8: for calls made one after another from a job counter that is not negative and
too few to exhaust the range of `int`, whether they succeed or fail: the job IDs of the
successful calls, read as hexadecimal numbers, are strictly increasing in call order
and pairwise distinct; they are the consecutive numbers from the starting counter on,
one per successful call; the counter ends higher by the number of successful calls;
and each single call either succeeds, issues the counter's value and adds exactly one
to the counter, or fails and leaves the counter unchanged. -/
theorem jobIDs_strictly_increasing (env : Deps) (c0 : Int) (calls : List Call)
    (h0 : 0 ≤ c0) (hbound : c0 + calls.length < 2 ^ 63) :
    (jobIDs (runCalls env c0 calls).2).Pairwise idLt ∧
    (jobIDs (runCalls env c0 calls).2).Nodup ∧
    (jobIDs (runCalls env c0 calls).2).map parseHex
      = (List.range' c0.toNat (jobIDs (runCalls env c0 calls).2).length).map some ∧
    (jobIDs (runCalls env c0 calls).2).length
      = ((runCalls env c0 calls).2.filter Result.isOk).length ∧
    (runCalls env c0 calls).1 = c0 + (jobIDs (runCalls env c0 calls).2).length ∧
    (∀ (c : Int) (call : Call), 0 ≤ c → c + 1 < 2 ^ 63 →
      ((GenerateWork env c call.template call.chainName call.arbitrary
            call.poolPayoutPubScriptKey call.reservedArbitraryByteLength).1 = c + 1 ∧
        jobID (GenerateWork env c call.template call.chainName call.arbitrary
            call.poolPayoutPubScriptKey call.reservedArbitraryByteLength).2
          = some (sprintf08x c) ∧
        (GenerateWork env c call.template call.chainName call.arbitrary
            call.poolPayoutPubScriptKey call.reservedArbitraryByteLength).2.isOk = true) ∨
      ((GenerateWork env c call.template call.chainName call.arbitrary
            call.poolPayoutPubScriptKey call.reservedArbitraryByteLength).1 = c ∧
        jobID (GenerateWork env c call.template call.chainName call.arbitrary
            call.poolPayoutPubScriptKey call.reservedArbitraryByteLength).2 = none ∧
        (GenerateWork env c call.template call.chainName call.arbitrary
            call.poolPayoutPubScriptKey call.reservedArbitraryByteLength).2.isOk
          = false)) := by
  obtain ⟨h1, h2, h3⟩ := runCalls_jobIDs env calls c0 h0 hbound
  have hp := pairwise_idLt_of_range _ _ h1
  exact ⟨hp, nodup_of_pairwise_idLt _ hp, h1, h3, h2,
    fun c call hc0 hc1 => generateWork_step env c call hc0 hc1⟩

/-- C8 on the toy instance: five calls from counter 0, two of them successful. -/
theorem jobIDs_strictly_increasing_witness :
    jobIDs (runCalls demoDeps 0 demoCalls).2 = ["00000000", "00000001"] ∧
    (runCalls demoDeps 0 demoCalls).1 = 2 ∧
    (jobIDs (runCalls demoDeps 0 demoCalls).2).Pairwise idLt ∧
    (jobIDs (runCalls demoDeps 0 demoCalls).2).Nodup :=
  ⟨by decide, by decide,
    (jobIDs_strictly_increasing demoDeps 0 demoCalls (by decide) (by decide)).1,
    (jobIDs_strictly_increasing demoDeps 0 demoCalls (by decide) (by decide)).2.1⟩

end bitcoin
